import Mathlib

/-
Shallow embedding of the product-catalog service
(controllers/product.controller.js, models/product.model.js).

Modelling conventions:
* CSV cell values are strings; a field absent from a row is `none`
  (JavaScript `undefined`).  JavaScript truthiness on such a value is
  `false` exactly for `undefined` and the empty string.
* JavaScript numbers are modelled as exact rationals plus explicit
  positive/negative infinity markers (`JSNum`); `NaN` is represented by
  `Option.none` at parse results.  IEEE-754 double rounding and
  overflow-to-infinity of large finite literals are not modelled: the
  rationals stand for the doubles exactly at the magnitudes the claims
  exercise.
* `parseFloat` / `parseInt` follow the ECMAScript longest-valid-prefix
  grammars (whitespace skipping, optional sign, `Infinity` literal,
  decimal/fraction/exponent parts; radix-10 digits for `parseInt`).
-/

/-- JavaScript truthiness of a possibly-absent string value:
`undefined` and the empty string are falsy, every other string truthy. -/
def truthyOpt : Option String → Bool
  | none => false
  | some s => !decide (s = "")

/-- A JavaScript number that is not NaN: an infinity, or the exact
decimal value `m * 10 ^ e` (every `parseFloat` of a finite decimal
literal is exactly of this shape, so no rounding is modelled). -/
inductive JSNum where
  | num (m : ℤ) (e : ℤ)
  | posInf
  | negInf
deriving DecidableEq, Repr

/-- Strict `<` on the decimal values: compare mantissas brought to the
common (smaller) exponent. -/
def decLT (m1 e1 m2 e2 : ℤ) : Bool :=
  decide (m1 * 10 ^ (e1 - min e1 e2).toNat < m2 * 10 ^ (e2 - min e1 e2).toNat)

/-- Non-strict `<=` on the decimal values. -/
def decLE (m1 e1 m2 e2 : ℤ) : Bool :=
  decide (m1 * 10 ^ (e1 - min e1 e2).toNat ≤ m2 * 10 ^ (e2 - min e1 e2).toNat)

/-- JavaScript strict `>` on non-NaN numbers. -/
def jsGT : JSNum → JSNum → Bool
  | .num m1 e1, .num m2 e2 => decLT m2 e2 m1 e1
  | .num _ _, .posInf => false
  | .num _ _, .negInf => true
  | .posInf, .posInf => false
  | .posInf, _ => true
  | .negInf, _ => false

/-- JavaScript `>=` on non-NaN numbers. -/
def jsGE : JSNum → JSNum → Bool
  | .num m1 e1, .num m2 e2 => decLE m2 e2 m1 e1
  | .num _ _, .posInf => false
  | .num _ _, .negInf => true
  | .posInf, _ => true
  | .negInf, .negInf => true
  | .negInf, _ => false

/-- JavaScript `<=` on non-NaN numbers. -/
def jsLE (a b : JSNum) : Bool := jsGE b a

/-- ECMAScript StrWhiteSpace characters skipped by `parseFloat`/`parseInt`
(the common ASCII ones plus no-break space and BOM). -/
def jsIsWhite (c : Char) : Bool :=
  decide (c = ' ' ∨ c = '\t' ∨ c = '\n' ∨ c = '\r' ∨ c = '\x0b' ∨
    c = '\x0c' ∨ c = '\u00a0' ∨ c = '\ufeff')

/-- Split off the longest run of decimal digits. -/
def spanDigits : List Char → List Char × List Char
  | [] => ([], [])
  | c :: cs =>
    if c.isDigit then
      let (ds, rest) := spanDigits cs
      (c :: ds, rest)
    else ([], c :: cs)

/-- Numeric value of a digit run. -/
def digitsVal (ds : List Char) : ℕ :=
  ds.foldl (fun acc c => 10 * acc + (c.toNat - 48)) 0

/-- Optional sign; returns `true` for negative and the remaining characters. -/
def takeSign : List Char → Bool × List Char
  | '-' :: cs => (true, cs)
  | '+' :: cs => (false, cs)
  | cs => (false, cs)

/-- Exponent part of a decimal literal (`e`/`E`, optional sign, digits).
If no well-formed exponent follows, it is not consumed (longest valid
prefix semantics): returns the exponent value and remaining characters. -/
def takeExponent (cs : List Char) : ℤ × List Char :=
  match cs with
  | c :: rest =>
    if c = 'e' ∨ c = 'E' then
      let (eneg, rest2) := takeSign rest
      let (eds, rest3) := spanDigits rest2
      if eds = [] then (0, cs)
      else ((if eneg then -(digitsVal eds : ℤ) else (digitsVal eds : ℤ)), rest3)
    else (0, cs)
  | [] => (0, [])

/-- Mantissa-and-exponent part of an ECMAScript StrUnsignedDecimalLiteral
(after any sign): `digits [. digits] [exp]` or `. digits [exp]`; the
value is `mantissa * 10 ^ exponent` with the fraction folded into the
mantissa.  Returns `none` when no valid literal is present (NaN). -/
def parseUnsignedDec (cs : List Char) : Option (ℕ × ℤ) :=
  let (ip, r1) := spanDigits cs
  let (fp, r2) :=
    match r1 with
    | '.' :: r => spanDigits r
    | _ => ([], r1)
  if ip = [] ∧ fp = [] then none
  else
    let (e, _) := takeExponent r2
    some (digitsVal (ip ++ fp), e - fp.length)

/-- ECMAScript `parseFloat` on a string: skip whitespace, optional sign,
then the literal `Infinity` or a decimal literal; `none` is NaN. -/
def jsParseFloat (s : String) : Option JSNum :=
  let cs := s.data.dropWhile jsIsWhite
  let (neg, cs1) := takeSign cs
  if List.isPrefixOf "Infinity".data cs1 then
    some (if neg then .negInf else .posInf)
  else
    match parseUnsignedDec cs1 with
    | some me => some (.num (if neg then -(me.1 : ℤ) else (me.1 : ℤ)) me.2)
    | none => none

/-- ECMAScript `parseInt(s, 10)`: skip whitespace, optional sign, longest
run of decimal digits; `none` is NaN (no digits at all). -/
def jsParseInt (s : String) : Option ℤ :=
  let cs := s.data.dropWhile jsIsWhite
  let (neg, cs1) := takeSign cs
  let (ds, _) := spanDigits cs1
  if ds = [] then none
  else some (if neg then -(digitsVal ds : ℤ) else (digitsVal ds : ℤ))

/-- A Raw Row as produced by the CSV decoder: each expected column is a
string when present in the decoded record, `none` when absent. -/
structure RawRow where
  sku : Option String
  name : Option String
  brand : Option String
  color : Option String
  size : Option String
  mrp : Option String
  price : Option String
  quantity : Option String
deriving DecidableEq, Repr

/-- The fixed taxonomy of rejection reasons of the Row Validator. -/
inductive Reason where
  | missingFields
  | badNumber
  | priceAboveMrp
  | negativeQty
deriving DecidableEq, Repr

/-- The exact reason strings pushed by the controller. -/
def Reason.msg : Reason → String
  | .missingFields => "Missing required fields."
  | .badNumber => "Invalid number format for MRP, Price, or Quantity."
  | .priceAboveMrp => "Price cannot be greater than MRP."
  | .negativeQty => "Quantity can\x27t be negative."

/-- A Validated Product: the spread of the Raw Row with the three numeric
fields replaced by their parsed values (`{...row, mrp, price, quantity}`).
The string fields pass through exactly as decoded. -/
structure Product where
  sku : Option String
  name : Option String
  brand : Option String
  color : Option String
  size : Option String
  mrp : JSNum
  price : JSNum
  quantity : ℤ
deriving DecidableEq, Repr

/-- The required-fields condition of the controller:
`!sku || !name || !brand || !mrp || !price` negated. -/
def requiredOk (r : RawRow) : Bool :=
  truthyOpt r.sku && truthyOpt r.name && truthyOpt r.brand &&
  truthyOpt r.mrp && truthyOpt r.price

/-- `parseFloat(mrp)`; after the required check `mrp` is a present,
non-empty string, so the `getD` default is never the value parsed. -/
def parsedMrp (r : RawRow) : Option JSNum := jsParseFloat (r.mrp.getD "")

/-- `parseFloat(price)`. -/
def parsedPrice (r : RawRow) : Option JSNum := jsParseFloat (r.price.getD "")

/-- The argument string of `parseInt(quantity || 0, 10)`: a falsy quantity
(absent or empty) is replaced by the number `0`, whose string form is
`"0"`. -/
def quantityStr (r : RawRow) : String :=
  match r.quantity with
  | none => "0"
  | some s => if s = "" then "0" else s

/-- `parseInt(quantity || 0, 10)`. -/
def parsedQty (r : RawRow) : Option ℤ := jsParseInt (quantityStr r)

/-- The Row Validator: the body of the per-row `data` handler of
`uploadProducts`, with its early returns as nested alternatives. -/
def validateRow (r : RawRow) : Except Reason Product :=
  if !(requiredOk r) then .error .missingFields
  else
    match parsedMrp r, parsedPrice r, parsedQty r with
    | some m, some p, some q =>
      if jsGT p m then .error .priceAboveMrp
      else if q < 0 then .error .negativeQty
      else .ok { sku := r.sku, name := r.name, brand := r.brand,
                 color := r.color, size := r.size,
                 mrp := m, price := p, quantity := q }
    | _, _, _ => .error .badNumber

/-- A Rejection Record: 1-based row ordinal, original row, reason. -/
structure Rejection where
  row : ℕ
  data : RawRow
  reason : Reason
deriving DecidableEq, Repr

/-
Ingestion pipeline: `uploadProducts` stream handling.  The decoded rows
arrive in file order; `rowCount` is incremented before each validation,
so the first data row has ordinal 1 (header excluded).  Accepted and
rejected rows are appended in arrival order.
-/

/-- Process the decoded rows starting after `n` already-counted rows,
returning the accepted products and the rejection records in file order. -/
def processRowsFrom (n : ℕ) : List RawRow → List Product × List Rejection
  | [] => ([], [])
  | r :: rs =>
    let rest := processRowsFrom (n + 1) rs
    match validateRow r with
    | .ok p => (p :: rest.1, rest.2)
    | .error e => (rest.1, { row := n + 1, data := r, reason := e } :: rest.2)

/-- The accepted/rejected partition of a whole decoded file. -/
def processRows (rows : List RawRow) : List Product × List Rejection :=
  processRowsFrom 0 rows

/-
Catalog Store: MongoDB collection as a list of products in natural
(insertion) order.  `Product.bulkWrite` with
`updateOne {filter: {sku}, update: {$set: product}, upsert: true}`
replaces the first entry with the same sku in place, or appends a new
entry.  Schema-level trimming/validation of `product.model.js` does not
run under `bulkWrite` and is not modelled; timestamps are omitted.
-/

/-- One `updateOne ... upsert: true` operation keyed on sku. -/
def upsertOne : List Product → Product → List Product
  | [], p => [p]
  | e :: es, p =>
    if e.sku = p.sku then p :: es else e :: upsertOne es p

/-- `Product.bulkWrite(operations)`: the upserts applied in order. -/
def bulkWrite (c : List Product) (ps : List Product) : List Product :=
  ps.foldl upsertOne c

/-- The skus of the catalog entries, in storage order. -/
def skusOf (c : List Product) : List (Option String) := c.map (·.sku)

/-- Lookup of the first entry with the given sku (`findOne {sku}`). -/
def findSku (c : List Product) (s : Option String) : Option Product :=
  c.find? (fun p => decide (p.sku = s))

/-- The last product in a batch carrying the given sku, if any. -/
def lastUpsert : List Product → Option String → Option Product
  | [], _ => none
  | p :: ps, s =>
    match lastUpsert ps s with
    | some q => some q
    | none => if p.sku = s then some p else none

/-- Outcome of `POST /api/upload`: the 400 no-file response, or the 201
summary together with the resulting catalog and the list of batch
persistence calls that were issued (each one the list of upserted
products, in order). -/
inductive UploadResult where
  | noFile
  | done (stored : ℕ) (failed : ℕ) (failedDetails : List Rejection)
      (db : List Product) (batches : List (List Product))
deriving DecidableEq, Repr

/-- The `uploadProducts` controller on a decoded file (`none` models a
request with no file attached) against a given catalog state. -/
def uploadProducts (file : Option (List RawRow)) (db : List Product) :
    UploadResult :=
  match file with
  | none => .noFile
  | some rows =>
    let vp := (processRows rows).1
    let fv := (processRows rows).2
    if vp.length > 0 then
      .done vp.length fv.length fv (bulkWrite db vp) [vp]
    else
      .done vp.length fv.length fv db []

/-- The catalog state after an upload request. -/
def uploadDb (file : Option (List RawRow)) (db : List Product) :
    List Product :=
  match uploadProducts file db with
  | .noFile => db
  | .done _ _ _ ndb _ => ndb

/-- The `stored` count reported by an upload request (0 for no file). -/
def uploadStored (file : Option (List RawRow)) (db : List Product) : ℕ :=
  match uploadProducts file db with
  | .noFile => 0
  | .done st _ _ _ _ => st

/-- The `failed` count reported by an upload request. -/
def uploadFailed (file : Option (List RawRow)) (db : List Product) : ℕ :=
  match uploadProducts file db with
  | .noFile => 0
  | .done _ f _ _ _ => f

/-- The `failedDetails` list reported by an upload request. -/
def uploadDetails (file : Option (List RawRow)) (db : List Product) :
    List Rejection :=
  match uploadProducts file db with
  | .noFile => []
  | .done _ _ d _ _ => d

/-- The batch persistence calls issued by an upload request. -/
def uploadBatches (file : Option (List RawRow)) (db : List Product) :
    List (List Product) :=
  match uploadProducts file db with
  | .noFile => []
  | .done _ _ _ _ b => b

/-
Query facade: GET /api/products (paginated listing).
-/

/-- `parseInt(req.query.page, 10) || 1`: an absent parameter or a NaN or
zero parse falls back to the default. -/
def effPage (q : Option String) : ℤ :=
  match q with
  | none => 1
  | some s =>
    match jsParseInt s with
    | none => 1
    | some n => if n = 0 then 1 else n

/-- `parseInt(req.query.limit, 10) || 10`. -/
def effLimit (q : Option String) : ℤ :=
  match q with
  | none => 10
  | some s =>
    match jsParseInt s with
    | none => 10
    | some n => if n = 0 then 10 else n

/-- The 200 body of the listing endpoint. -/
structure ListResponse where
  totalProducts : ℕ
  totalPages : ℤ
  currentPage : ℤ
  products : List Product
deriving DecidableEq, Repr

/-- The `getAllProducts` controller: `find({}).skip((page-1)*limit)
.limit(limit)` over the catalog in storage order, with
`totalPages = Math.ceil(totalProducts / limit)`.  A negative skip or
limit would be a store error; the model clamps them at 0, which is
outside the domain the spec constrains (page, limit >= 1). -/
def getAllProducts (pageQ limitQ : Option String) (db : List Product) :
    ListResponse :=
  let page := effPage pageQ
  let limit := effLimit limitQ
  let skip := (page - 1) * limit
  { totalProducts := db.length
    totalPages := ⌈(db.length : ℚ) / (limit : ℚ)⌉
    currentPage := page
    products := (db.drop skip.toNat).take limit.toNat }

/-
Query facade: GET /api/products/search.  The controller builds a MongoDB
filter whose name/brand/color criteria are `$regex` with the `i` option:
the query string is a regular-expression pattern, not a literal.  The
model implements a regex core (literal characters, `.`, alternation,
grouping, `*`, `+`, `?`, and escaped punctuation) with ECMAScript
unanchored-search semantics via Brzozowski derivatives.  Patterns using
constructs outside this core (character classes, anchors, braces, lazy
quantifiers, alphanumeric escapes) are treated as store errors, as an
invalid pattern would be.
-/

/-- Regular-expression core syntax. -/
inductive RE where
  | fail
  | eps
  | lit (c : Char)
  | dot
  | cat (a b : RE)
  | alt (a b : RE)
  | star (a : RE)
deriving DecidableEq, Repr

/-- Whether the expression accepts the empty string. -/
def RE.nullable : RE → Bool
  | .fail => false
  | .eps => true
  | .lit _ => false
  | .dot => false
  | .cat a b => a.nullable && b.nullable
  | .alt a b => a.nullable || b.nullable
  | .star _ => true

/-- ECMAScript `.` matches any character other than a line terminator. -/
def isLineTerm (c : Char) : Bool :=
  decide (c = '\n' ∨ c = '\r' ∨ c = ' ' ∨ c = ' ')

/-- Brzozowski derivative with respect to one character. -/
def RE.deriv : RE → Char → RE
  | .fail, _ => .fail
  | .eps, _ => .fail
  | .lit c, d => if c = d then .eps else .fail
  | .dot, d => if isLineTerm d then .fail else .eps
  | .cat a b, d =>
    if a.nullable then .alt (.cat (a.deriv d) b) (b.deriv d)
    else .cat (a.deriv d) b
  | .alt a b, d => .alt (a.deriv d) (b.deriv d)
  | .star a, d => .cat (a.deriv d) (.star a)

/-- Whether the expression matches some initial segment of the input. -/
def RE.acceptsFrom : RE → List Char → Bool
  | r, [] => r.nullable
  | r, c :: cs => r.nullable || (r.deriv c).acceptsFrom cs

/-- Unanchored search: whether the expression matches some segment of the
input, as `RegExp.prototype.test` does. -/
def RE.search : RE → List Char → Bool
  | r, [] => r.nullable
  | r, c :: cs => r.acceptsFrom (c :: cs) || r.search cs

/-- Lower-case every literal: with a lower-cased subject this models the
case-insensitive `i` option (ASCII simple case folding). -/
def RE.lowerLits : RE → RE
  | .fail => .fail
  | .eps => .eps
  | .lit c => .lit c.toLower
  | .dot => .dot
  | .cat a b => .cat a.lowerLits b.lowerLits
  | .alt a b => .alt a.lowerLits b.lowerLits
  | .star a => .star a.lowerLits

/-- Characters that cannot start an atom in the modelled regex core
(quantifiers, closing parenthesis, alternation bar, and the unsupported
constructs: classes, anchors, braces). -/
def reNonAtom (c : Char) : Bool :=
  decide (c = '*' ∨ c = '+' ∨ c = '?' ∨ c = '(' ∨ c = ')' ∨ c = '[' ∨
    c = ']' ∨ c = '\\' ∨ c = '|' ∨ c = '^' ∨ c = '$' ∨ c = '\x7b' ∨
    c = '\x7d')

/-- Apply an optional postfix quantifier to a parsed atom. -/
def applyQuant (r : RE) : List Char → RE × List Char
  | '*' :: rest => (.star r, rest)
  | '+' :: rest => (.cat r (.star r), rest)
  | '?' :: rest => (.alt r .eps, rest)
  | cs => (r, cs)

/-- Fueled recursive-descent pattern parser; `lvl` 0 parses an
alternation, 1 a concatenation of quantified atoms, 2 a single atom.
Returns the parsed expression and the unconsumed characters, or `none`
for a pattern outside the modelled core. -/
def parseLevel : ℕ → ℕ → List Char → Option (RE × List Char)
  | 0, _, _ => none
  | fuel + 1, 0, cs =>
    match parseLevel fuel 1 cs with
    | some (a, '|' :: rest) =>
      match parseLevel fuel 0 rest with
      | some (b, rest2) => some (.alt a b, rest2)
      | none => none
    | some (a, rest) => some (a, rest)
    | none => none
  | fuel + 1, 1, cs =>
    match cs with
    | [] => some (.eps, [])
    | c :: _ =>
      if c = ')' ∨ c = '|' then some (.eps, cs)
      else
        match parseLevel fuel 2 cs with
        | some (a, cs1) =>
          let q := applyQuant a cs1
          match parseLevel fuel 1 q.2 with
          | some (b, cs3) => some (.cat q.1 b, cs3)
          | none => none
        | none => none
  | fuel + 1, _, cs =>
    match cs with
    | [] => none
    | '(' :: rest =>
      match parseLevel fuel 0 rest with
      | some (a, ')' :: rest2) => some (a, rest2)
      | _ => none
    | '.' :: rest => some (.dot, rest)
    | '\\' :: rest =>
      match rest with
      | [] => none
      | d :: rest2 => if d.isAlphanum then none else some (.lit d, rest2)
    | c :: rest => if reNonAtom c then none else some (.lit c, rest)

/-- Parse a whole pattern string. -/
def parseRE (s : String) : Option RE :=
  match parseLevel (8 * (s.length + 2)) 0 s.data with
  | some (r, []) => some r
  | _ => none

/-- A built MongoDB filter document.  A regex criterion is present when
its query parameter was truthy; a price bound is present when its query
parameter was truthy, with `some none` standing for a NaN bound
(`parseFloat` failed on the provided string). -/
structure MongoFilter where
  nameRe : Option RE
  brandRe : Option RE
  colorRe : Option RE
  priceGte : Option (Option JSNum)
  priceLte : Option (Option JSNum)
deriving DecidableEq, Repr

/-- Build one optional regex criterion: absent when the parameter is
falsy, a store error (`none`) when the pattern is outside the core. -/
def mkRegexCrit (q : Option String) : Option (Option RE) :=
  if truthyOpt q then (parseRE (q.getD "")).map some
  else some none

/-- Build one optional price bound (`$gte`/`$lte`). -/
def mkPriceBound (q : Option String) : Option (Option JSNum) :=
  if truthyOpt q then some (jsParseFloat (q.getD ""))
  else none

/-- Build the filter document of `filterProducts`; `none` models the
store rejecting the query (invalid / unsupported pattern). -/
def buildFilter (nameQ brandQ colorQ minQ maxQ : Option String) :
    Option MongoFilter := do
  let nr ← mkRegexCrit nameQ
  let br ← mkRegexCrit brandQ
  let cr ← mkRegexCrit colorQ
  pure { nameRe := nr, brandRe := br, colorRe := cr,
         priceGte := mkPriceBound minQ, priceLte := mkPriceBound maxQ }

/-- ASCII lower-casing of a string, character by character (the effect
of the `i` option on the subject). -/
def lowerStr (s : String) : List Char := s.data.map Char.toLower

/-- One case-insensitive `$regex` criterion applied to a field: a missing
field never matches. -/
def critRegex (c : Option RE) (v : Option String) : Bool :=
  match c with
  | none => true
  | some r =>
    match v with
    | none => false
    | some s => r.lowerLits.search (lowerStr s)

/-- One `$gte` bound on a numeric field; a NaN bound matches no stored
number (in MongoDB NaN compares equal only to NaN). -/
def critGe (b : Option (Option JSNum)) (v : JSNum) : Bool :=
  match b with
  | none => true
  | some none => false
  | some (some x) => jsGE v x

/-- One `$lte` bound on a numeric field. -/
def critLe (b : Option (Option JSNum)) (v : JSNum) : Bool :=
  match b with
  | none => true
  | some none => false
  | some (some x) => jsLE v x

/-- Whether a catalog entry satisfies the filter document. -/
def MongoFilter.matches (f : MongoFilter) (p : Product) : Bool :=
  critRegex f.nameRe p.name && critRegex f.brandRe p.brand &&
  critRegex f.colorRe p.color && critGe f.priceGte p.price &&
  critLe f.priceLte p.price

/-- Outcome of `GET /api/products/search`: 500 on a store error, 404 when
no entry matches, 200 with all matching entries otherwise. -/
inductive SearchResult where
  | storeError
  | notFound
  | found (products : List Product)
deriving DecidableEq, Repr

/-- The `filterProducts` controller. -/
def filterProducts (nameQ brandQ colorQ minQ maxQ : Option String)
    (db : List Product) : SearchResult :=
  match buildFilter nameQ brandQ colorQ minQ maxQ with
  | none => .storeError
  | some f =>
    let ps := db.filter f.matches
    if ps.length = 0 then .notFound else .found ps

/-- The reading of the spec sentence for the search criteria: a
case-insensitive literal substring match of the query against the field
(compared with the `$regex` semantics the code actually uses). -/
def specSubstrCI (pat : String) (v : Option String) : Bool :=
  match v with
  | none => false
  | some s => decide (List.IsInfix (lowerStr pat) (lowerStr s))

deriving instance DecidableEq for Except

/-- Modelled from the spec: trimming as removal of leading and trailing
whitespace (the claims speak of values "after trimming"; the code never
trims, so this definition exists only to state those claims). -/
def specTrim (s : String) : String :=
  String.mk
    (((s.data.dropWhile Char.isWhitespace).reverse.dropWhile
      Char.isWhitespace).reverse)

/-
Claim-side formalisation helpers: the four validation rules as
independent predicates, and the first-failing-rule selector, to compare
with the sequential early-return structure of `validateRow`.
-/

/-- Violation of rule 1 (required fields). -/
def ruleViolatedReq (r : RawRow) : Bool := !requiredOk r

/-- Violation of rule 2 (numeric format): some parse is NaN. -/
def ruleViolatedNum (r : RawRow) : Bool :=
  (parsedMrp r).isNone || (parsedPrice r).isNone || (parsedQty r).isNone

/-- Violation of rule 3 (price ceiling), on rows where both parse. -/
def ruleViolatedPrice (r : RawRow) : Bool :=
  match parsedMrp r, parsedPrice r with
  | some m, some p => jsGT p m
  | _, _ => false

/-- Violation of rule 4 (non-negative quantity), where it parses. -/
def ruleViolatedQty (r : RawRow) : Bool :=
  match parsedQty r with
  | some q => decide (q < 0)
  | none => false

/-- The rules in the fixed evaluation order, with their reasons. -/
def ruleTable : List (Reason × (RawRow → Bool)) :=
  [(.missingFields, ruleViolatedReq), (.badNumber, ruleViolatedNum),
   (.priceAboveMrp, ruleViolatedPrice), (.negativeQty, ruleViolatedQty)]

/-- The reason of the first rule, in evaluation order, that the row
violates (if any). -/
def firstFailingReason (r : RawRow) : Option Reason :=
  (ruleTable.find? (fun t => t.2 r)).map Prod.fst

/-
Concrete sample rows and catalog entries (drawn from the test fixtures)
used by witnesses and counterexamples.
-/

/-- A well-formed row (Scenario A, first row). -/
def rowA : RawRow :=
  { sku := some "TSHIRT-RED-M-001", name := some "T-Shirt",
    brand := some "CoolBrand", color := some "Red", size := some "M",
    mrp := some "800", price := some "500", quantity := some "10" }

/-- The Validated Product of `rowA`. -/
def prodA : Product :=
  { sku := some "TSHIRT-RED-M-001", name := some "T-Shirt",
    brand := some "CoolBrand", color := some "Red", size := some "M",
    mrp := .num 800 0, price := .num 500 0, quantity := 10 }

/-- A second well-formed row (Scenario A, second row). -/
def rowB : RawRow :=
  { sku := some "JEANS-BLU-32-002", name := some "Jeans",
    brand := some "DenimCo", color := some "Blue", size := some "32",
    mrp := some "2000", price := some "1500", quantity := some "5" }

/-- The Validated Product of `rowB`. -/
def prodB : Product :=
  { sku := some "JEANS-BLU-32-002", name := some "Jeans",
    brand := some "DenimCo", color := some "Blue", size := some "32",
    mrp := .num 2000 0, price := .num 1500 0, quantity := 5 }

/-- A row sharing the sku of `rowA` with different mutable values. -/
def rowA2 : RawRow :=
  { sku := some "TSHIRT-RED-M-001", name := some "T-Shirt v2",
    brand := some "CoolBrand", color := some "Black", size := some "L",
    mrp := some "900", price := some "450", quantity := some "7" }

/-- The Validated Product of `rowA2`. -/
def prodA2 : Product :=
  { sku := some "TSHIRT-RED-M-001", name := some "T-Shirt v2",
    brand := some "CoolBrand", color := some "Black", size := some "L",
    mrp := .num 900 0, price := .num 450 0, quantity := 7 }

/-- A row whose sku is a single space: non-empty, hence truthy, but
empty after trimming. -/
def rowWs : RawRow :=
  { sku := some " ", name := some "N", brand := some "B",
    color := none, size := none, mrp := some "10", price := some "5",
    quantity := some "1" }

/-- The Validated Product of `rowWs`: the sku passes through untrimmed. -/
def prodWs : Product :=
  { sku := some " ", name := some "N", brand := some "B",
    color := none, size := none, mrp := .num 10 0, price := .num 5 0,
    quantity := 1 }

/-- A row whose mrp parses to positive infinity. -/
def rowInf : RawRow :=
  { sku := some "A", name := some "N", brand := some "B",
    color := none, size := none, mrp := some "Infinity",
    price := some "5", quantity := some "1" }

/-- The Validated Product of `rowInf`: an infinite mrp is accepted. -/
def prodInf : Product :=
  { sku := some "A", name := some "N", brand := some "B",
    color := none, size := none, mrp := .posInf, price := .num 5 0,
    quantity := 1 }

/-- A row with a non-numeric price (Scenario B). -/
def rowBadPrice : RawRow :=
  { sku := some "INVALID-NUM", name := some "Invalid Number",
    brand := some "BrandF", color := some "Yellow", size := some "M",
    mrp := some "1000", price := some "not-a-price",
    quantity := some "5" }

/-- A row with a negative quantity (Scenario B). -/
def rowNegQty : RawRow :=
  { sku := some "INVALID-QTY-003", name := some "Invalid Qty",
    brand := some "BrandC", color := some "Green", size := some "L",
    mrp := some "1500", price := some "1200", quantity := some "-1" }

/-- A stored catalog entry (search fixture). -/
def prodShirt : Product :=
  { sku := some "A-001", name := some "Red T-Shirt",
    brand := some "StreamThreads", color := some "Red", size := none,
    mrp := .num 800 0, price := .num 500 0, quantity := 10 }

/-- A stored catalog entry (search fixture). -/
def prodJeans : Product :=
  { sku := some "B-002", name := some "Blue Jeans",
    brand := some "DenimWorks", color := some "Blue", size := none,
    mrp := .num 2000 0, price := .num 1500 0, quantity := 5 }

/-- A 15-entry catalog fixture (Scenario D). -/
def db15 : List Product :=
  (List.range 15).map (fun i => { prodShirt with quantity := (i : ℤ) })

/-- Number of catalog entries carrying a given sku. -/
def countSku (c : List Product) (s : Option String) : ℕ :=
  c.countP (fun p => decide (p.sku = s))

/-- C1: the Row Validator is total — it returns a Validated Product
exactly when no rule is violated, and otherwise exactly one reason from
the fixed taxonomy, namely the reason of the first rule, in the fixed
evaluation order (required fields, numeric format, price ceiling,
non-negative quantity), that the row violates; later rules do not
influence the outcome. -/
theorem validateRow_first_failing_rule (r : RawRow) :
    ((∃ p, validateRow r = .ok p) ↔ firstFailingReason r = none) ∧
    (∀ e : Reason, validateRow r = .error e ↔ firstFailingReason r = some e) := by
  unfold validateRow firstFailingReason ruleTable ruleViolatedReq
    ruleViolatedNum ruleViolatedPrice ruleViolatedQty
  by_cases hreq : requiredOk r
  · rcases hm : parsedMrp r with _ | m <;>
    rcases hp : parsedPrice r with _ | p <;>
    rcases hq : parsedQty r with _ | q <;>
      simp [hreq, hm, hp, hq, List.find?]
    by_cases hgt : jsGT p m
    · simp [hgt]
    · by_cases hneg : q < 0 <;> simp [hgt, hneg]
  · simp [hreq, List.find?]


/-- The validator as a cascade of the four independent rule predicates:
the bridge between the early-return control flow of the source and the
declarative rule order. -/
theorem validateRow_spec (r : RawRow) :
    validateRow r =
      if ruleViolatedReq r then .error .missingFields
      else if ruleViolatedNum r then .error .badNumber
      else if ruleViolatedPrice r then .error .priceAboveMrp
      else if ruleViolatedQty r then .error .negativeQty
      else .ok { sku := r.sku, name := r.name, brand := r.brand,
                 color := r.color, size := r.size,
                 mrp := (parsedMrp r).getD (.num 0 0),
                 price := (parsedPrice r).getD (.num 0 0),
                 quantity := (parsedQty r).getD 0 } := by
  unfold validateRow ruleViolatedReq ruleViolatedNum ruleViolatedPrice
    ruleViolatedQty
  by_cases hreq : requiredOk r
  · rcases hm : parsedMrp r with _ | m <;>
    rcases hp : parsedPrice r with _ | p <;>
    rcases hq : parsedQty r with _ | q <;>
      simp [hreq, hm, hp, hq]
  · simp [hreq]

/-- A possibly-absent string is falsy exactly when it is absent or the
empty string — without any trimming. -/
theorem truthyOpt_eq_false (o : Option String) :
    truthyOpt o = false ↔ (o = none ∨ o = some "") := by
  cases o <;> simp [truthyOpt]

/-- The validator reports the missing-fields reason exactly when the
required-fields condition of the source fails. -/
theorem validateRow_missing_iff (r : RawRow) :
    validateRow r = .error .missingFields ↔ requiredOk r = false := by
  rw [validateRow_spec]
  by_cases hreq : requiredOk r
  · simp [ruleViolatedReq, hreq]
    split_ifs <;> simp
  · simp [ruleViolatedReq, hreq]

/-- Rule 2 is violated exactly when one of the three parses is NaN. -/
theorem ruleViolatedNum_iff (r : RawRow) :
    ruleViolatedNum r = true ↔
      (parsedMrp r = none ∨ parsedPrice r = none ∨ parsedQty r = none) := by
  simp [ruleViolatedNum, Option.isNone_iff_eq_none, or_assoc]

/-- C3 (amended): the required-fields check rejects with reason
"Missing required fields." exactly when one of sku, name, brand, mrp,
price is absent or the empty string — no trimming is applied, so a
whitespace-only value passes — and on success the non-numeric fields of
the Validated Product are the original strings passed through
unchanged (untrimmed). -/
theorem validateRow_required_untrimmed (r : RawRow) :
    (validateRow r = .error .missingFields ↔
      (r.sku = none ∨ r.sku = some "" ∨ r.name = none ∨ r.name = some "" ∨
       r.brand = none ∨ r.brand = some "" ∨ r.mrp = none ∨ r.mrp = some "" ∨
       r.price = none ∨ r.price = some "")) ∧
    (∀ p : Product, validateRow r = .ok p →
      p.sku = r.sku ∧ p.name = r.name ∧ p.brand = r.brand ∧
      p.color = r.color ∧ p.size = r.size) := by
  constructor
  · rw [validateRow_missing_iff]
    simp only [requiredOk, Bool.and_eq_false_iff, truthyOpt_eq_false]
    tauto
  · intro p h
    rw [validateRow_spec] at h
    split_ifs at h
    simp only [Except.ok.injEq] at h
    subst h
    simp

/-- C3 counterexample: a row whose sku is a single space is empty after
trimming, yet the validator accepts it rather than rejecting it with
"Missing required fields.", and the resulting Validated Product carries
the sku untrimmed. -/
theorem validateRow_whitespace_sku_counterexample :
    validateRow rowWs = .ok prodWs ∧ specTrim " " = "" ∧
    prodWs.sku = some " " := by
  refine ⟨by decide, by decide, rfl⟩

/-- Witness for the amended C3 theorem at a concrete accepted row. -/
theorem validateRow_required_untrimmed_witness :
    validateRow rowA = .ok prodA ∧ prodA.sku = rowA.sku ∧
    prodA.name = rowA.name ∧ prodA.brand = rowA.brand ∧
    prodA.color = rowA.color ∧ prodA.size = rowA.size := by
  have h := (validateRow_required_untrimmed rowA).2 prodA (by decide)
  exact ⟨by decide, h.1, h.2.1, h.2.2.1, h.2.2.2.1, h.2.2.2.2⟩

/-- C4 (amended): past the required-fields check, the numeric-format
rule rejects with "Invalid number format for MRP, Price, or Quantity."
exactly when one of the three parses is NaN; values parsing to an
infinity are not NaN, hence not rejected (the finiteness requirement of
the spec is not enforced by the code). -/
theorem validateRow_nan_only (r : RawRow) (h : requiredOk r = true) :
    validateRow r = .error .badNumber ↔
      (parsedMrp r = none ∨ parsedPrice r = none ∨ parsedQty r = none) := by
  rw [validateRow_spec, ← ruleViolatedNum_iff]
  have hreq : ruleViolatedReq r = false := by simp [ruleViolatedReq, h]
  by_cases hnum : ruleViolatedNum r
  · simp [hreq, hnum]
  · simp [hreq, hnum]
    split_ifs <;> simp

/-- C4 counterexample: an mrp of "Infinity" parses to an infinite value
and the row is accepted with that infinite mrp, not rejected. -/
theorem validateRow_infinity_counterexample :
    jsParseFloat "Infinity" = some JSNum.posInf ∧
    validateRow rowInf = .ok prodInf ∧ prodInf.mrp = JSNum.posInf := by
  refine ⟨by decide, by decide, rfl⟩

/-- Witness for the amended C4 theorem at a concrete NaN-price row. -/
theorem validateRow_nan_only_witness :
    requiredOk rowBadPrice = true ∧
    validateRow rowBadPrice = .error .badNumber :=
  ⟨by decide, (validateRow_nan_only rowBadPrice (by decide)).mpr
    (Or.inr (Or.inl (by decide)))⟩

/-- Every accepted product is the successful validation of some row of
the file. -/
theorem mem_processRowsFrom_ok (p : Product) (n : ℕ) (rows : List RawRow)
    (h : p ∈ (processRowsFrom n rows).1) :
    ∃ r ∈ rows, validateRow r = .ok p := by
  induction rows generalizing n with
  | nil => simp [processRowsFrom] at h
  | cons r rs ih =>
    unfold processRowsFrom at h
    rcases hv : validateRow r with e | q <;> rw [hv] at h <;>
      simp only [] at h
    · obtain ⟨r2, hr2, ho⟩ := ih (n + 1) h
      exact ⟨r2, List.mem_cons_of_mem r hr2, ho⟩
    · rcases List.mem_cons.mp h with hh | ht
      · exact ⟨r, List.mem_cons_self r rs, by rw [hv, hh]⟩
      · obtain ⟨r2, hr2, ho⟩ := ih (n + 1) ht
        exact ⟨r2, List.mem_cons_of_mem r hr2, ho⟩

/-- C2: after the stream is exhausted, the pipeline issues exactly one
batch persistence call iff the accepted set is non-empty (zero calls
otherwise); the single batch consists exactly of the accepted products,
each the successful validation of some row (never a row that failed
validation); and the summary reports stored and failed as the sizes of
the accepted and rejected sets. -/
theorem uploadProducts_single_batch (rows : List RawRow)
    (db : List Product) :
    uploadStored (some rows) db = (processRows rows).1.length ∧
    uploadFailed (some rows) db = (processRows rows).2.length ∧
    uploadDetails (some rows) db = (processRows rows).2 ∧
    ((uploadBatches (some rows) db).length = 1 ↔ (processRows rows).1 ≠ []) ∧
    ((uploadBatches (some rows) db).length = 0 ↔ (processRows rows).1 = []) ∧
    ((processRows rows).1 ≠ [] →
      uploadBatches (some rows) db = [(processRows rows).1] ∧
      uploadDb (some rows) db = bulkWrite db (processRows rows).1) ∧
    ((processRows rows).1 = [] → uploadDb (some rows) db = db) ∧
    (∀ b ∈ uploadBatches (some rows) db, ∀ p ∈ b,
      ∃ r ∈ rows, validateRow r = .ok p) := by
  by_cases h : (processRows rows).1 = []
  · simp [uploadStored, uploadFailed, uploadDetails, uploadBatches,
      uploadDb, uploadProducts, h]
  · have hl : (processRows rows).1.length > 0 := by
      cases hv : (processRows rows).1 with
      | nil => exact absurd hv h
      | cons a l => simp [hv]
    refine ⟨by simp [uploadStored, uploadProducts, hl],
      by simp [uploadFailed, uploadProducts, hl],
      by simp [uploadDetails, uploadProducts, hl],
      by simp [uploadBatches, uploadProducts, hl, h],
      by simp [uploadBatches, uploadProducts, hl, h],
      fun _ => ⟨by simp [uploadBatches, uploadProducts, hl],
        by simp [uploadDb, uploadProducts, hl]⟩,
      fun hc => absurd hc h, ?_⟩
    intro b hb p hp
    have hb2 : b = (processRows rows).1 := by
      have : uploadBatches (some rows) db = [(processRows rows).1] := by
        simp [uploadBatches, uploadProducts, hl]
      rw [this] at hb
      exact List.mem_singleton.mp hb
    subst hb2
    exact mem_processRowsFrom_ok p 0 rows hp

/-- Witness for C2 at a concrete two-row file with one rejection. -/
theorem uploadProducts_single_batch_witness :
    uploadStored (some [rowA, rowBadPrice]) [] = 1 ∧
    uploadFailed (some [rowA, rowBadPrice]) [] = 1 ∧
    (uploadBatches (some [rowA, rowBadPrice]) []).length = 1 ∧
    uploadBatches (some [rowA, rowBadPrice]) [] = [[prodA]] ∧
    ∃ r ∈ [rowA, rowBadPrice], validateRow r = .ok prodA := by
  have h := uploadProducts_single_batch [rowA, rowBadPrice] []
  refine ⟨by decide, by decide, ?_, by decide, ?_⟩
  · exact (h.2.2.2.1).mpr (by decide)
  · exact h.2.2.2.2.2.2.2 [prodA] (by decide) prodA (by decide)

/-- Rejection records produced from row `n + 1` onwards: ordinals are
strictly ascending, lie in `(n, n + length]`, and each record carries
the row at its ordinal together with its validation error. -/
theorem processRowsFrom_rejections (n : ℕ) (rows : List RawRow) :
    List.Pairwise (fun a b => a.row < b.row) (processRowsFrom n rows).2 ∧
    ∀ rec ∈ (processRowsFrom n rows).2,
      n + 1 ≤ rec.row ∧ rec.row ≤ n + rows.length ∧
      rows.get? (rec.row - 1 - n) = some rec.data ∧
      validateRow rec.data = .error rec.reason := by
  induction rows generalizing n with
  | nil => simp [processRowsFrom]
  | cons r rs ih =>
    unfold processRowsFrom
    rcases hv : validateRow r with e | q <;> dsimp only
    · constructor
      · rw [List.pairwise_cons]
        refine ⟨?_, (ih (n + 1)).1⟩
        intro b hb
        have := ((ih (n + 1)).2 b hb).1
        show n + 1 < b.row
        omega
      · intro rec hrec
        rcases List.mem_cons.mp hrec with rfl | ht
        · refine ⟨?_, ?_, ?_, ?_⟩
          · show n + 1 ≤ n + 1
            omega
          · show n + 1 ≤ n + (r :: rs).length
            simp
          · show (r :: rs).get? (n + 1 - 1 - n) = some r
            have h0 : n + 1 - 1 - n = 0 := by omega
            rw [h0]
            rfl
          · show validateRow r = .error e
            exact hv
        · obtain ⟨h1, h2, h3, h4⟩ := (ih (n + 1)).2 rec ht
          refine ⟨by omega, by simp; omega, ?_, h4⟩
          have hidx : rec.row - 1 - n = (rec.row - 1 - (n + 1)) + 1 := by
            omega
          rw [hidx, List.get?_cons_succ]
          exact h3
    · constructor
      · exact (ih (n + 1)).1
      · intro rec hrec
        obtain ⟨h1, h2, h3, h4⟩ := (ih (n + 1)).2 rec hrec
        refine ⟨by omega, by simp; omega, ?_, h4⟩
        have hidx : rec.row - 1 - n = (rec.row - 1 - (n + 1)) + 1 := by
          omega
        rw [hidx, List.get?_cons_succ]
        exact h3

/-- C5: the rejection records of the summary carry the 1-based ordinal
(starting at 1, header excluded) of the row they reject — the record
holds exactly the row at its ordinal in file order, with its validation
error — and the summary lists them in strictly ascending ordinal order
matching file order. -/
theorem uploadDetails_ordinals (rows : List RawRow) (db : List Product) :
    List.Pairwise (fun a b => a.row < b.row)
      (uploadDetails (some rows) db) ∧
    ∀ rec ∈ uploadDetails (some rows) db,
      1 ≤ rec.row ∧ rec.row ≤ rows.length ∧
      rows.get? (rec.row - 1) = some rec.data ∧
      validateRow rec.data = .error rec.reason := by
  have hd : uploadDetails (some rows) db = (processRows rows).2 := by
    by_cases hl : (processRows rows).1.length > 0 <;>
      simp [uploadDetails, uploadProducts, hl]
  rw [hd]
  have h := processRowsFrom_rejections 0 rows
  unfold processRows
  refine ⟨h.1, ?_⟩
  intro rec hrec
  obtain ⟨h1, h2, h3, h4⟩ := h.2 rec hrec
  exact ⟨by omega, by omega, by simpa using h3, h4⟩

/-- Witness for C5 at a concrete file whose second and fourth rows are
rejected. -/
theorem uploadDetails_ordinals_witness :
    List.Pairwise (fun a b => a.row < b.row)
      (uploadDetails (some [rowA, rowBadPrice, rowB, rowNegQty]) []) ∧
    ∀ rec ∈ uploadDetails (some [rowA, rowBadPrice, rowB, rowNegQty]) [],
      1 ≤ rec.row ∧ rec.row ≤ 4 ∧
      [rowA, rowBadPrice, rowB, rowNegQty].get? (rec.row - 1) =
        some rec.data ∧
      validateRow rec.data = .error rec.reason := by
  have h := uploadDetails_ordinals [rowA, rowBadPrice, rowB, rowNegQty] []
  exact ⟨h.1, fun rec hrec => (h.2 rec hrec)⟩


/-
Store lemmas: behaviour of sku-keyed upserts.
-/

/-- Unfolding of `upsertOne` at a matching head. -/
theorem upsertOne_cons_eq (e : Product) (es : List Product) (p : Product)
    (h : e.sku = p.sku) : upsertOne (e :: es) p = p :: es := by
  simp [upsertOne, h]

/-- Unfolding of `upsertOne` at a non-matching head. -/
theorem upsertOne_cons_ne (e : Product) (es : List Product) (p : Product)
    (h : ¬(e.sku = p.sku)) : upsertOne (e :: es) p = e :: upsertOne es p := by
  simp [upsertOne, h]

/-- Looking up after one upsert: the upserted key now maps to the new
product; other keys are untouched. -/
theorem findSku_upsertOne (c : List Product) (p : Product)
    (s : Option String) :
    findSku (upsertOne c p) s =
      if p.sku = s then some p else findSku c s := by
  induction c with
  | nil =>
    by_cases hs : p.sku = s <;> simp [upsertOne, findSku, List.find?, hs]
  | cons e es ih =>
    by_cases he : e.sku = p.sku
    · rw [upsertOne_cons_eq e es p he]
      by_cases hs : p.sku = s
      · simp [findSku, List.find?, hs]
      · have hes : ¬(e.sku = s) := by rw [he]; exact hs
        simp [findSku, List.find?, hs, hes]
    · rw [upsertOne_cons_ne e es p he]
      by_cases hs : e.sku = s
      · have hps : ¬(p.sku = s) := by
          intro hp
          exact he (hs.trans hp.symm)
        simp [findSku, List.find?, hs, hps]
      · simp only [findSku, List.find?] at ih ⊢
        simp [hs, ih]

/-- Looking up after a batch: the last upsert of the key wins, else the
prior state answers. -/
theorem findSku_bulkWrite (c : List Product) (ps : List Product)
    (s : Option String) :
    findSku (bulkWrite c ps) s =
      match lastUpsert ps s with
      | some q => some q
      | none => findSku c s := by
  induction ps generalizing c with
  | nil => simp [bulkWrite, lastUpsert]
  | cons p ps ih =>
    show findSku (bulkWrite (upsertOne c p) ps) s = _
    rw [ih (upsertOne c p), findSku_upsertOne]
    have hstep : lastUpsert (p :: ps) s =
        match lastUpsert ps s with
        | some q => some q
        | none => if p.sku = s then some p else none := rfl
    rw [hstep]
    rcases hl : lastUpsert ps s with _ | q
    · by_cases hps : p.sku = s <;> simp [hps]
    · simp

/-- An upsert of an already-present key keeps the sku list unchanged. -/
theorem skusOf_upsertOne_mem (c : List Product) (p : Product)
    (h : p.sku ∈ skusOf c) : skusOf (upsertOne c p) = skusOf c := by
  induction c with
  | nil => simp [skusOf] at h
  | cons e es ih =>
    by_cases he : e.sku = p.sku
    · rw [upsertOne_cons_eq e es p he]
      simp [skusOf, he]
    · have hm : p.sku ∈ skusOf es := by
        rcases List.mem_cons.mp h with hh | ht
        · exact absurd hh.symm he
        · exact ht
      rw [upsertOne_cons_ne e es p he]
      show e.sku :: skusOf (upsertOne es p) = e.sku :: skusOf es
      rw [ih hm]

/-- An upsert of a fresh key appends the product. -/
theorem upsertOne_not_mem (c : List Product) (p : Product)
    (h : p.sku ∉ skusOf c) : upsertOne c p = c ++ [p] := by
  induction c with
  | nil => simp [upsertOne]
  | cons e es ih =>
    have he : ¬(e.sku = p.sku) := by
      intro hh
      exact h (by simp [skusOf, hh])
    have hm : p.sku ∉ skusOf es := by
      intro hh
      refine h ?_
      show p.sku ∈ e.sku :: skusOf es
      exact List.mem_cons_of_mem _ hh
    rw [upsertOne_cons_ne e es p he]
    show e :: upsertOne es p = e :: (es ++ [p])
    rw [ih hm]

/-- Upserting never removes a present key. -/
theorem mem_skusOf_upsertOne (c : List Product) (p : Product)
    (s : Option String) (h : s ∈ skusOf c) :
    s ∈ skusOf (upsertOne c p) := by
  by_cases hm : p.sku ∈ skusOf c
  · rwa [skusOf_upsertOne_mem c p hm]
  · rw [upsertOne_not_mem c p hm]
    show s ∈ (c ++ [p]).map (·.sku)
    rw [List.map_append]
    exact List.mem_append_left _ h

/-- A batch never removes a present key. -/
theorem mem_skusOf_bulkWrite (c : List Product) (ps : List Product)
    (s : Option String) (h : s ∈ skusOf c) :
    s ∈ skusOf (bulkWrite c ps) := by
  induction ps generalizing c with
  | nil => exact h
  | cons p ps ih =>
    show s ∈ skusOf (bulkWrite (upsertOne c p) ps)
    exact ih (upsertOne c p) (mem_skusOf_upsertOne c p s h)

/-- A batch of upserts whose keys are all already present leaves the sku
list (hence the record count and storage order of keys) unchanged. -/
theorem skusOf_bulkWrite_stable (c : List Product) (ps : List Product)
    (h : ∀ p ∈ ps, p.sku ∈ skusOf c) :
    skusOf (bulkWrite c ps) = skusOf c := by
  induction ps generalizing c with
  | nil => rfl
  | cons p ps ih =>
    have h1 : p.sku ∈ skusOf c := h p (List.mem_cons_self p ps)
    have h2 : skusOf (upsertOne c p) = skusOf c := skusOf_upsertOne_mem c p h1
    show skusOf (bulkWrite (upsertOne c p) ps) = skusOf c
    rw [ih (upsertOne c p) ?_, h2]
    intro q hq
    rw [h2]
    exact h q (List.mem_cons_of_mem p hq)

/-- A successful lookup means the key is present. -/
theorem findSku_eq_some_mem (c : List Product) (s : Option String)
    (q : Product) (h : findSku c s = some q) : s ∈ skusOf c := by
  induction c with
  | nil => simp [findSku, List.find?] at h
  | cons e es ih =>
    by_cases he : e.sku = s
    · show s ∈ e.sku :: skusOf es
      exact he ▸ List.mem_cons_self _ _
    · have ht : findSku es s = some q := by
        simpa [findSku, List.find?, he] using h
      exact List.mem_cons_of_mem _ (ih ht)

/-- An absent key looks up to nothing. -/
theorem findSku_eq_none (c : List Product) (s : Option String)
    (h : s ∉ skusOf c) : findSku c s = none := by
  induction c with
  | nil => rfl
  | cons e es ih =>
    have he : ¬(e.sku = s) := by
      intro hh
      exact h (by simp [skusOf, hh])
    have hm : s ∉ skusOf es := by
      intro hh
      exact h (List.mem_cons_of_mem _ hh)
    simpa [findSku, List.find?, he] using ih hm

/-- A batched product has a last upsert for its own key. -/
theorem lastUpsert_of_mem (ps : List Product) (p : Product) (h : p ∈ ps) :
    ∃ q, lastUpsert ps p.sku = some q := by
  induction ps with
  | nil => simp at h
  | cons r rs ih =>
    show ∃ q, (match lastUpsert rs p.sku with
      | some q => some q
      | none => if r.sku = p.sku then some r else none) = some q
    rcases hl : lastUpsert rs p.sku with _ | q
    · rcases List.mem_cons.mp h with rfl | ht
      · simp
      · obtain ⟨q, hq⟩ := ih ht
        rw [hq] at hl
        cases hl
    · exact ⟨q, by simp⟩

/-- After a batch, every batched key is present in the catalog. -/
theorem mem_skusOf_bulkWrite_self (c : List Product) (ps : List Product) :
    ∀ p ∈ ps, p.sku ∈ skusOf (bulkWrite c ps) := by
  intro p hp
  obtain ⟨q, hq⟩ := lastUpsert_of_mem ps p hp
  have hfind : findSku (bulkWrite c ps) p.sku = some q := by
    rw [findSku_bulkWrite, hq]
  exact findSku_eq_some_mem _ _ _ hfind

/-- One upsert preserves sku uniqueness. -/
theorem nodup_skusOf_upsertOne (c : List Product) (p : Product)
    (h : (skusOf c).Nodup) : (skusOf (upsertOne c p)).Nodup := by
  by_cases hm : p.sku ∈ skusOf c
  · rwa [skusOf_upsertOne_mem c p hm]
  · rw [upsertOne_not_mem c p hm]
    show ((c ++ [p]).map (·.sku)).Nodup
    rw [List.map_append]
    simp only [List.nodup_append]
    refine ⟨h, by simp, ?_⟩
    intro s hs
    simp only [List.map_cons, List.map_nil, List.mem_cons,
      List.not_mem_nil, or_false]
    intro hsp
    exact hm (hsp ▸ hs)

/-- A whole batch preserves sku uniqueness. -/
theorem nodup_skusOf_bulkWrite (c : List Product) (ps : List Product)
    (h : (skusOf c).Nodup) : (skusOf (bulkWrite c ps)).Nodup := by
  induction ps generalizing c with
  | nil => exact h
  | cons p ps ih =>
    exact ih (upsertOne c p) (nodup_skusOf_upsertOne c p h)

/-- Two catalogs with unique skus, the same sku sequence and the same
lookup function are equal. -/
theorem catalog_ext (c1 : List Product) (c2 : List Product)
    (h1 : (skusOf c1).Nodup) (hs : skusOf c1 = skusOf c2)
    (hf : ∀ s, findSku c1 s = findSku c2 s) : c1 = c2 := by
  induction c1 generalizing c2 with
  | nil =>
    cases c2 with
    | nil => rfl
    | cons f fs => simp [skusOf] at hs
  | cons e es ih =>
    cases c2 with
    | nil => simp [skusOf] at hs
    | cons f fs =>
      have hs2 : e.sku = f.sku ∧ skusOf es = skusOf fs := by
        simpa [skusOf] using hs
      have he1 : findSku (e :: es) e.sku = some e := by
        simp [findSku, List.find?]
      have he2 : findSku (f :: fs) e.sku = some f := by
        simp [findSku, List.find?, hs2.1.symm]
      have hef : e = f := by
        have := (hf e.sku).symm.trans he1
        rw [he2] at this
        exact (Option.some.injEq _ _).mp this.symm
      have hnd : (skusOf es).Nodup := by
        have : (e.sku :: skusOf es).Nodup := h1
        exact (List.nodup_cons.mp this).2
      have hnm : e.sku ∉ skusOf es := by
        have : (e.sku :: skusOf es).Nodup := h1
        exact (List.nodup_cons.mp this).1
      have hnm2 : e.sku ∉ skusOf fs := by
        rw [← hs2.2]
        exact hnm
      refine List.cons_eq_cons.mpr ⟨hef, ih fs hnd hs2.2 ?_⟩
      intro s
      by_cases hse : e.sku = s
      · rw [← hse, findSku_eq_none es e.sku hnm,
          findSku_eq_none fs e.sku hnm2]
      · have l1 : findSku (e :: es) s = findSku es s := by
          simp [findSku, List.find?, hse]
        have l2 : findSku (f :: fs) s = findSku fs s := by
          have : ¬(f.sku = s) := by rw [← hs2.1]; exact hse
          simp [findSku, List.find?, this]
        have := hf s
        rw [l1, l2] at this
        exact this

/-- Replaying the same batch of sku-keyed upserts a second time does not
change the catalog. -/
theorem bulkWrite_idem (c : List Product) (ps : List Product)
    (h : (skusOf c).Nodup) :
    bulkWrite (bulkWrite c ps) ps = bulkWrite c ps := by
  apply catalog_ext
  · exact nodup_skusOf_bulkWrite _ ps (nodup_skusOf_bulkWrite c ps h)
  · exact skusOf_bulkWrite_stable _ ps (mem_skusOf_bulkWrite_self c ps)
  · intro s
    rw [findSku_bulkWrite, findSku_bulkWrite]
    rcases hl : lastUpsert ps s with _ | q
    · rfl
    · rfl

/-- C6: uploading the same decoded CSV twice in succession leaves the
catalog in the same final state as uploading it once (in particular the
record count is unchanged by the second run), and both runs report the
same stored count; the starting catalog is assumed sku-unique, the
store invariant. -/
theorem upload_idempotent (rows : List RawRow) (db : List Product)
    (h : (skusOf db).Nodup) :
    uploadDb (some rows) (uploadDb (some rows) db) =
      uploadDb (some rows) db ∧
    (uploadDb (some rows) (uploadDb (some rows) db)).length =
      (uploadDb (some rows) db).length ∧
    uploadStored (some rows) (uploadDb (some rows) db) =
      uploadStored (some rows) db := by
  by_cases hv : (processRows rows).1.length > 0
  · have h1 : uploadDb (some rows) db = bulkWrite db (processRows rows).1 := by
      simp [uploadDb, uploadProducts, hv]
    have h2 : uploadDb (some rows) (bulkWrite db (processRows rows).1) =
        bulkWrite (bulkWrite db (processRows rows).1) (processRows rows).1 := by
      simp [uploadDb, uploadProducts, hv]
    rw [h1, h2, bulkWrite_idem db _ h]
    exact ⟨rfl, rfl, by simp [uploadStored, uploadProducts, hv]⟩
  · refine ⟨?_, ?_, ?_⟩ <;>
      simp [uploadDb, uploadStored, uploadProducts, hv]

/-- Witness for C6: the two-row Scenario A file uploaded twice into an
empty catalog. -/
theorem upload_idempotent_witness :
    (skusOf ([] : List Product)).Nodup ∧
    uploadDb (some [rowA, rowB]) (uploadDb (some [rowA, rowB]) []) =
      uploadDb (some [rowA, rowB]) [] ∧
    uploadStored (some [rowA, rowB]) (uploadDb (some [rowA, rowB]) []) =
      uploadStored (some [rowA, rowB]) [] := by
  have h := upload_idempotent [rowA, rowB] [] (by decide)
  exact ⟨by decide, h.1, h.2.2⟩

/-- An absent key is counted zero times. -/
theorem countSku_eq_zero (c : List Product) (s : Option String)
    (h : s ∉ skusOf c) : countSku c s = 0 := by
  induction c with
  | nil => rfl
  | cons e es ih =>
    have he : ¬(e.sku = s) := by
      intro hh
      exact h (by simp [skusOf, hh])
    have hm : s ∉ skusOf es := by
      intro hh
      exact h (List.mem_cons_of_mem _ hh)
    show List.countP (fun p => decide (p.sku = s)) (e :: es) = 0
    rw [List.countP_cons_of_neg _ _ (by simp [he])]
    exact ih hm

/-- In a sku-unique catalog a present key is counted exactly once. -/
theorem countSku_eq_one (c : List Product) (s : Option String)
    (hnd : (skusOf c).Nodup) (hm : s ∈ skusOf c) : countSku c s = 1 := by
  induction c with
  | nil => simp [skusOf] at hm
  | cons e es ih =>
    have hnd2 : e.sku ∉ skusOf es ∧ (skusOf es).Nodup := by
      have : (e.sku :: skusOf es).Nodup := hnd
      exact List.nodup_cons.mp this
    by_cases he : e.sku = s
    · have hz : countSku es s = 0 :=
        countSku_eq_zero es s (he ▸ hnd2.1)
      show List.countP (fun p => decide (p.sku = s)) (e :: es) = 1
      rw [List.countP_cons_of_pos _ _ (by simp [he])]
      show countSku es s + 1 = 1
      rw [hz]
    · have hm2 : s ∈ skusOf es := by
        rcases List.mem_cons.mp hm with hh | ht
        · exact absurd hh.symm he
        · exact ht
      show List.countP (fun p => decide (p.sku = s)) (e :: es) = 1
      rw [List.countP_cons_of_neg _ _ (by simp [he])]
      exact ih hnd2.2 hm2

/-- C10: when a file carries the same sku on several accepted rows, the
reported stored count still counts every accepted row, yet after the
batch the catalog holds exactly one entry for each accepted sku, namely
the values of its last accepted row in file order; and an upload into a
sku-unique catalog leaves it sku-unique (the catalog never holds two
entries with the same sku). -/
theorem upload_duplicate_sku (rows : List RawRow) (db : List Product)
    (h : (skusOf db).Nodup) :
    uploadStored (some rows) db = (processRows rows).1.length ∧
    (skusOf (uploadDb (some rows) db)).Nodup ∧
    ∀ p ∈ (processRows rows).1,
      countSku (uploadDb (some rows) db) p.sku = 1 ∧
      findSku (uploadDb (some rows) db) p.sku =
        lastUpsert (processRows rows).1 p.sku := by
  by_cases hv : (processRows rows).1.length > 0
  · have h1 : uploadDb (some rows) db = bulkWrite db (processRows rows).1 := by
      simp [uploadDb, uploadProducts, hv]
    refine ⟨by simp [uploadStored, uploadProducts, hv], ?_, ?_⟩
    · rw [h1]
      exact nodup_skusOf_bulkWrite db _ h
    · intro p hp
      obtain ⟨q, hq⟩ := lastUpsert_of_mem _ p hp
      constructor
      · rw [h1]
        exact countSku_eq_one _ _ (nodup_skusOf_bulkWrite db _ h)
          (mem_skusOf_bulkWrite_self db _ p hp)
      · rw [h1, findSku_bulkWrite, hq]
  · have hnil : (processRows rows).1 = [] := by
      cases hx : (processRows rows).1 with
      | nil => rfl
      | cons a l => rw [hx] at hv; simp at hv
    refine ⟨by simp [uploadStored, uploadProducts, hv], ?_, ?_⟩
    · simpa [uploadDb, uploadProducts, hv] using h
    · intro p hp
      rw [hnil] at hp
      simp at hp

/-- Witness for C10: a file whose two accepted rows share one sku. -/
theorem upload_duplicate_sku_witness :
    uploadStored (some [rowA, rowA2]) [] = 2 ∧
    (skusOf (uploadDb (some [rowA, rowA2]) [])).Nodup ∧
    countSku (uploadDb (some [rowA, rowA2]) []) prodA2.sku = 1 ∧
    findSku (uploadDb (some [rowA, rowA2]) []) prodA2.sku =
      lastUpsert (processRows [rowA, rowA2]).1 prodA2.sku := by
  have h := upload_duplicate_sku [rowA, rowA2] [] (by decide)
  have h2 := h.2.2 prodA2 (by decide)
  exact ⟨by decide, h.2.1, h2.1, h2.2⟩

/-- The rational ceiling of `n / L` is the rounded-up natural division
`(n + L - 1) / L`. -/
theorem ceil_cast_div_eq (n L : ℕ) (hL : 1 ≤ L) :
    ⌈(n : ℚ) / (L : ℚ)⌉ = (((n + L - 1) / L : ℕ) : ℤ) := by
  have hL0 : (0 : ℚ) < (L : ℚ) := by exact_mod_cast hL
  have h1L : 1 ≤ n + L := by omega
  have hdm := Nat.div_add_mod (n + L - 1) L
  have hrlt : (n + L - 1) % L < L := Nat.mod_lt _ hL
  have hdm2 : L * ((n + L - 1) / L) + (n + L - 1) % L + 1 = n + L := by
    have := congrArg (· + 1) hdm
    simpa [Nat.sub_add_cancel h1L] using this
  have hq : (L : ℚ) * (((n + L - 1) / L : ℕ) : ℚ) +
      (((n + L - 1) % L : ℕ) : ℚ) + 1 = (n : ℚ) + (L : ℚ) := by
    exact_mod_cast hdm2
  have hr1 : (((n + L - 1) % L : ℕ) : ℚ) + 1 ≤ (L : ℚ) := by
    exact_mod_cast hrlt
  have hr0 : (0 : ℚ) ≤ (((n + L - 1) % L : ℕ) : ℚ) := by positivity
  rw [Int.ceil_eq_iff]
  have hcast : ((((n + L - 1) / L : ℕ) : ℤ) : ℚ) =
      (((n + L - 1) / L : ℕ) : ℚ) := Int.cast_natCast _
  constructor
  · rw [hcast]
    refine (sub_lt_iff_lt_add).mpr ?_
    have hmul : ((((n + L - 1) / L : ℕ) : ℚ) - 1) * L < n := by
      nlinarith [hq, hr1, hr0, hL0]
    have := (lt_div_iff hL0).mpr hmul
    linarith [this]
  · rw [hcast]
    refine (div_le_iff hL0).mpr ?_
    nlinarith [hq, hr1, hr0, hL0]

/-- C7: for page and limit parameters whose effective values (after the
`|| 1` and `|| 10` defaulting, which kick in exactly when the parameter
is absent or unparseable or zero) are at least 1, the listing returns the
slice of the catalog at offset `(page-1)*limit` of size at most `limit`
in storage order, the total entry count, and a total page count equal to
the rounded-up quotient of total by limit. -/
theorem getAllProducts_pagination (pq lq : Option String)
    (db : List Product) (hp : 1 ≤ effPage pq) (hl : 1 ≤ effLimit lq) :
    (getAllProducts pq lq db).products =
      (db.drop (((effPage pq - 1) * effLimit lq).toNat)).take
        (effLimit lq).toNat ∧
    (getAllProducts pq lq db).products.length ≤ (effLimit lq).toNat ∧
    (getAllProducts pq lq db).totalProducts = db.length ∧
    (getAllProducts pq lq db).currentPage = effPage pq ∧
    (getAllProducts pq lq db).totalPages =
      ((db.length + (effLimit lq).toNat - 1) / (effLimit lq).toNat : ℕ) ∧
    effPage none = 1 ∧ effLimit none = 10 := by
  refine ⟨rfl, ?_, rfl, rfl, ?_, rfl, rfl⟩
  · show ((db.drop (((effPage pq - 1) * effLimit lq).toNat)).take
      (effLimit lq).toNat).length ≤ (effLimit lq).toNat
    exact List.length_take_le _ _
  · show ⌈(db.length : ℚ) / ((effLimit lq : ℤ) : ℚ)⌉ =
      ((db.length + (effLimit lq).toNat - 1) / (effLimit lq).toNat : ℕ)
    have htn : (((effLimit lq).toNat : ℤ) : ℚ) = ((effLimit lq : ℤ) : ℚ) := by
      rw [Int.toNat_of_nonneg (by omega)]
    have htn2 : ((effLimit lq : ℤ) : ℚ) = ((effLimit lq).toNat : ℚ) := by
      rw [← htn]
      push_cast
      ring
    rw [htn2, ceil_cast_div_eq db.length (effLimit lq).toNat (by omega)]

/-- Witness for C7: Scenario D, 15 entries with limit 5 and page 2. -/
theorem getAllProducts_pagination_witness :
    1 ≤ effPage (some "2") ∧ 1 ≤ effLimit (some "5") ∧
    (getAllProducts (some "2") (some "5") db15).products =
      (db15.drop 5).take 5 ∧
    (getAllProducts (some "2") (some "5") db15).products.length = 5 ∧
    (getAllProducts (some "2") (some "5") db15).totalProducts = 15 ∧
    (getAllProducts (some "2") (some "5") db15).currentPage = 2 ∧
    (getAllProducts (some "2") (some "5") db15).totalPages = 3 := by
  have h := getAllProducts_pagination (some "2") (some "5") db15
    (by decide) (by decide)
  refine ⟨by decide, by decide, ?_, ?_, h.2.2.1.trans (by decide), by decide,
    h.2.2.2.2.1.trans (by decide)⟩
  · rw [h.1]
    decide
  · rw [h.1]
    decide

/-- C8 counterexample: with the filter pattern "." the search returns an
entry whose name does not contain "." as a substring — the criteria are
regular-expression matches, not literal substring matches. -/
theorem filterProducts_regex_counterexample :
    filterProducts (some ".") none none none none [prodShirt] =
      .found [prodShirt] ∧
    specSubstrCI "." prodShirt.name = false := by
  exact ⟨by decide, by decide⟩

/-- A regex criterion holds exactly on present fields the (lowered)
pattern finds a match in. -/
theorem critRegex_iff (c : Option RE) (v : Option String) :
    critRegex c v = true ↔
      ∀ r, c = some r →
        ∃ s, v = some s ∧ r.lowerLits.search (lowerStr s) = true := by
  cases c <;> cases v <;> simp [critRegex]

/-- A well-formed (non-NaN) lower bound holds exactly when the price is
at least the bound. -/
theorem critGe_iff (b : Option (Option JSNum)) (v : JSNum)
    (hb : b ≠ some none) :
    critGe b v = true ↔ ∀ x, b = some (some x) → jsGE v x = true := by
  rcases b with _ | xb
  · simp [critGe]
  · rcases xb with _ | x
    · exact absurd rfl hb
    · simp [critGe]

/-- A well-formed (non-NaN) upper bound holds exactly when the price is
at most the bound. -/
theorem critLe_iff (b : Option (Option JSNum)) (v : JSNum)
    (hb : b ≠ some none) :
    critLe b v = true ↔ ∀ x, b = some (some x) → jsLE v x = true := by
  rcases b with _ | xb
  · simp [critLe]
  · rcases xb with _ | x
    · exact absurd rfl hb
    · simp [critLe]

/-- A successfully built filter carries exactly the provided price
bounds. -/
theorem buildFilter_price (nameQ brandQ colorQ minQ maxQ : Option String)
    (f : MongoFilter)
    (hf : buildFilter nameQ brandQ colorQ minQ maxQ = some f) :
    f.priceGte = mkPriceBound minQ ∧ f.priceLte = mkPriceBound maxQ := by
  unfold buildFilter at hf
  rcases hn : mkRegexCrit nameQ with _ | nr <;> rw [hn] at hf
  · simp [Option.bind] at hf
  rcases hb : mkRegexCrit brandQ with _ | br <;> rw [hb] at hf
  · simp [Option.bind] at hf
  rcases hc : mkRegexCrit colorQ with _ | cr <;> rw [hc] at hf
  · simp [Option.bind] at hf
  have hf3 : (⟨nr, br, cr, mkPriceBound minQ, mkPriceBound maxQ⟩
      : MongoFilter) = f := Option.some.inj (by simpa using hf)
  rw [← hf3]
  exact ⟨rfl, rfl⟩

/-- C8 (amended): the search returns exactly the catalog entries that
satisfy every provided criterion, where brand, name and color are
case-insensitive regular-expression matches (which coincide with
substring matches only for metacharacter-free patterns) and
minPrice/maxPrice are inclusive bounds on price (a provided bound of
"0", being a truthy string, still constrains the result); no pagination
is applied; provided the built filter is valid and the bounds parse as
numbers. -/
theorem filterProducts_regex_criteria
    (nameQ brandQ colorQ minQ maxQ : Option String) (db : List Product)
    (f : MongoFilter)
    (hf : buildFilter nameQ brandQ colorQ minQ maxQ = some f)
    (hg : f.priceGte ≠ some none) (hl : f.priceLte ≠ some none) :
    (filterProducts nameQ brandQ colorQ minQ maxQ db =
        if db.filter f.matches = [] then .notFound
        else .found (db.filter f.matches)) ∧
    (∀ p : Product, f.matches p = true ↔
      ((∀ r, f.nameRe = some r → ∃ s, p.name = some s ∧
          r.lowerLits.search (lowerStr s) = true) ∧
       (∀ r, f.brandRe = some r → ∃ s, p.brand = some s ∧
          r.lowerLits.search (lowerStr s) = true) ∧
       (∀ r, f.colorRe = some r → ∃ s, p.color = some s ∧
          r.lowerLits.search (lowerStr s) = true) ∧
       (∀ x, f.priceGte = some (some x) → jsGE p.price x = true) ∧
       (∀ x, f.priceLte = some (some x) → jsLE p.price x = true))) ∧
    (minQ = some "0" → f.priceGte = some (some (JSNum.num 0 0))) := by
  refine ⟨?_, ?_, ?_⟩
  · by_cases he : db.filter f.matches = [] <;>
      simp [filterProducts, hf, he, List.length_eq_zero]
  · intro p
    simp only [MongoFilter.matches, Bool.and_eq_true]
    rw [critRegex_iff, critRegex_iff, critRegex_iff, critGe_iff _ _ hg,
      critLe_iff _ _ hl]
    tauto
  · intro h0
    rw [(buildFilter_price nameQ brandQ colorQ minQ maxQ f hf).1, h0]
    decide

/-- Witness for the amended C8 at a concrete query (name "red",
minPrice "0") over a two-entry catalog. -/
theorem filterProducts_regex_criteria_witness :
    filterProducts (some "red") none none (some "0") none
      [prodShirt, prodJeans] = .found [prodShirt] ∧
    ({ nameRe := some (RE.cat (.lit 'r') (.cat (.lit 'e')
          (.cat (.lit 'd') .eps))),
       brandRe := none, colorRe := none,
       priceGte := some (some (JSNum.num 0 0)), priceLte := none }
        : MongoFilter).priceGte = some (some (JSNum.num 0 0)) := by
  have h := filterProducts_regex_criteria (some "red") none none
    (some "0") none [prodShirt, prodJeans]
    { nameRe := some (RE.cat (.lit 'r') (.cat (.lit 'e')
        (.cat (.lit 'd') .eps))),
      brandRe := none, colorRe := none,
      priceGte := some (some (JSNum.num 0 0)), priceLte := none }
    (by decide) (by decide) (by decide)
  refine ⟨?_, h.2.2 rfl⟩
  rw [h.1]
  decide

/-- C9: a search whose (validly built) filter matches no entries yields
the distinct not-found outcome, and only then, while listing an empty
catalog yields the normal success response with zero total, zero pages
and an empty product list; the two outcomes are always
distinguishable. -/
theorem empty_results_distinguishable
    (nameQ brandQ colorQ minQ maxQ : Option String) (db : List Product)
    (f : MongoFilter)
    (hf : buildFilter nameQ brandQ colorQ minQ maxQ = some f) :
    (filterProducts nameQ brandQ colorQ minQ maxQ db = .notFound ↔
      db.filter f.matches = []) ∧
    (∀ pq lq, (getAllProducts pq lq []).totalProducts = 0 ∧
      (getAllProducts pq lq []).products = [] ∧
      (getAllProducts pq lq []).totalPages = 0) ∧
    (∀ ps : List Product, SearchResult.notFound ≠ SearchResult.found ps) := by
  refine ⟨?_, ?_, by simp⟩
  · by_cases he : db.filter f.matches = [] <;>
      simp [filterProducts, hf, he, List.length_eq_zero]
  · intro pq lq
    refine ⟨rfl, by simp [getAllProducts], by simp [getAllProducts]⟩

/-- Witness for C9: a brand query matching nothing over a one-entry
catalog, and the empty-catalog listing with default parameters. -/
theorem empty_results_distinguishable_witness :
    filterProducts none (some "NoBrand") none none none [prodShirt] =
      .notFound ∧
    (getAllProducts none none []).totalProducts = 0 ∧
    (getAllProducts none none []).products = [] := by
  have h := empty_results_distinguishable none (some "NoBrand") none
    none none [prodShirt]
    { nameRe := none,
      brandRe := some (RE.cat (.lit 'N') (.cat (.lit 'o') (.cat (.lit 'B')
        (.cat (.lit 'r') (.cat (.lit 'a') (.cat (.lit 'n')
          (.cat (.lit 'd') .eps))))))),
      colorRe := none, priceGte := none, priceLte := none }
    (by decide)
  exact ⟨h.1.mpr (by decide), (h.2.1 none none).1, (h.2.1 none none).2.1⟩
